import Mathlib

/-
Verification of the strategka replay subsystem (strategka-core/src/replay):
a shallow embedding of the binary container encoder, the nom-based decoder,
and the Replay aggregate, followed by theorems settling the specified
properties (round trip, monotonic record, magic/version guards, the
length-prefixed block framing, and the chunked load loop).
-/

namespace Strategka

/-- Byte buffers are modelled as lists of naturals (a real byte is < 256;
the parsers only split and compare buffers, so no modular truncation is
applied on read). -/
abbrev Bytes := List Nat

/-- The nom ErrorKind values this code can produce (only Eof, raised by the
complete-variant integer readers on a too-short buffer). -/
inductive EKind where
  | Eof
  deriving DecidableEq, Repr

/-- Mirror of GenericError from replay/error.rs (payload-free where the Rust
payload is an external library error). The borrowed and owned forms of the
Rust type coincide in this model, where buffers are plain lists. -/
inductive GenericError where
  | IncoherentTurn : Nat → Nat → GenericError
  | IoError : GenericError
  | InvalidMagic : Bytes → GenericError
  | UnsupportedCoreVersion : Nat → GenericError
  | UnsupportedGameVersion : Nat → GenericError
  | MissingTurnInput : GenericError
  | Parsing : Bytes → EKind → GenericError
  | InvalidLength : Nat → Nat → GenericError
  | Encoder : GenericError
  | Decoder : GenericError
  | Context : String → GenericError → GenericError
  | Incomplete : Nat → GenericError
  deriving DecidableEq, Repr

/-- Strip the Context wrappers from an error, exposing the innermost cause. -/
def rootCause : GenericError → GenericError
  | .Context _ e => rootCause e
  | e => e

/-- Mirror of nom's IResult as used through the alias Parser in decoder.rs:
success carries the remaining input and the value; Err::Error, Err::Failure
and Err::Incomplete (with its Needed byte count) are the three failure forms. -/
inductive PResult (α : Type) where
  | ok : Bytes → α → PResult α
  | error : GenericError → PResult α
  | failure : GenericError → PResult α
  | incomplete : Nat → PResult α
  deriving DecidableEq, Repr

/-- Sequencing of parsers, mirroring the question-mark operator on IResult:
all three failure forms propagate unchanged. -/
def PResult.bind {α β : Type} : PResult α → (Bytes → α → PResult β) → PResult β
  | .ok rest v, f => f rest v
  | .error e, _ => .error e
  | .failure e, _ => .failure e
  | .incomplete n, _ => .incomplete n

/-- Mirror of nom's context combinator: wraps Error and Failure payloads in a
Context layer (via the ContextError instance in error.rs) and lets Ok and
Incomplete pass through. -/
def pcontext {α : Type} (label : String) (p : Bytes → PResult α) (input : Bytes) : PResult α :=
  match p input with
  | .error e => .error (.Context label e)
  | .failure e => .failure (.Context label e)
  | r => r

/-- Big-endian value of a byte list (how nom folds up be_u32 and be_u64). -/
def beVal (bs : Bytes) : Nat := bs.foldl (fun acc b => acc * 256 + b) 0

/-- Big-endian bytes of a value, width w: mirror of to_be_bytes (the value is
reduced modulo 256 per byte, matching fixed-width machine integers). -/
def beBytes : Nat → Nat → Bytes
  | 0, _ => []
  | w + 1, v => beBytes w (v / 256) ++ [v % 256]

/-- Mirror of nom bytes::streaming::take(n): Incomplete when fewer than n
bytes are present. -/
def take_s (n : Nat) (input : Bytes) : PResult Bytes :=
  if input.length < n then .incomplete (n - input.length)
  else .ok (input.drop n) (input.take n)

/-- Mirror of nom number::streaming::be_u32. -/
def be_u32_s (input : Bytes) : PResult Nat :=
  if input.length < 4 then .incomplete (4 - input.length)
  else .ok (input.drop 4) (beVal (input.take 4))

/-- Mirror of nom number::streaming::be_u64. -/
def be_u64_s (input : Bytes) : PResult Nat :=
  if input.length < 8 then .incomplete (8 - input.length)
  else .ok (input.drop 8) (beVal (input.take 8))

/-- Mirror of nom number::complete::be_u64 (used by decoder.rs): a too-short
buffer is an Error with ErrorKind Eof, not Incomplete. -/
def be_u64_c (input : Bytes) : PResult Nat :=
  if input.length < 8 then .error (.Parsing input .Eof)
  else .ok (input.drop 8) (beVal (input.take 8))

/-- Mirror of length_decoding from decoder.rs: read a u64 length with the
complete reader under the context label of the block length; fail with
InvalidLength if fewer bytes remain than declared; on a zero length yield
none without touching the inner parser; otherwise run the inner parser on
exactly the first len bytes, discard whatever input it left over, and
advance past the whole block. -/
def length_decoding {α : Type} (f : Bytes → PResult α) (input : Bytes) : PResult (Option α) :=
  (pcontext "block length" be_u64_c input).bind fun rest len =>
    if rest.length < len then .error (.InvalidLength len rest.length)
    else if len = 0 then .ok (rest.drop len) none
    else
      match pcontext "block body" f (rest.take len) with
      | .ok _ result => .ok (rest.drop len) (some result)
      | .error e => .error e
      | .failure e => .failure e
      | .incomplete n => .incomplete n

/-- Loop body of decode_vec from decoder.rs: parse a known number of items in
sequence, propagating the first failure. -/
def decode_vec_go {α : Type} (item : Bytes → PResult α) : Nat → Bytes → PResult (List α)
  | 0, input => .ok input []
  | n + 1, input =>
    (pcontext "vector item" item input).bind fun rest x =>
      match decode_vec_go item n rest with
      | .ok rest2 xs => .ok rest2 (x :: xs)
      | e => e

/-- Mirror of decode_vec from decoder.rs: read a u64 count (complete reader,
context label of the vector length), then that many items. -/
def decode_vec {α : Type} (item : Bytes → PResult α) (input : Bytes) : PResult (List α) :=
  (pcontext "vector length" be_u64_c input).bind fun rest len =>
    decode_vec_go item len rest

/-- Mirror of ciborium_parse from decoder.rs: run the deserializer over the
slice it was handed; on success report the whole slice as consumed (the Rust
code returns the empty suffix of its input); on failure raise a fatal
Decoder error. The deserializer itself stands for ciborium::de::from_reader
composed with the payload type's serde instance, an external parameter of
the generic code. -/
def ciborium_parse {α : Type} (deSer : Bytes → Option α) (input : Bytes) : PResult α :=
  match deSer input with
  | some v => .ok [] v
  | none => .failure .Decoder

/-- The World capability contract of world.rs together with the external
ciborium/serde codec of the two payload types: magic bytes (a 4-byte array
in Rust), game version, version guard, the Default value of the world type,
and the serializers and deserializers of the world and input types. -/
structure WorldCodec (W : Type) (I : Type) where
  magicBytes : Bytes
  magicLen : magicBytes.length = 4
  currentVersion : Nat
  guardVersion : Nat → Bool
  defaultW : W
  serW : W → Bytes
  deSerW : Bytes → Option W
  serI : I → Bytes
  deSerI : Bytes → Option I

/-- Default body of World::guard_version from world.rs: exact match with the
current version. -/
def defaultGuardVersion (currentVersion : Nat) (version : Nat) : Bool :=
  version == currentVersion

/-- Mirror of the Replay struct from replay/mod.rs. Turns are u64 values,
rate is u32; in the model both are naturals and the machine-width bounds
appear as hypotheses where they matter. -/
structure Replay (W : Type) (I : Type) where
  rate : Nat
  initial : W
  inputs : List (Nat × List I)
  deriving DecidableEq, Repr

/-- Magic bytes constant from replay/mod.rs, ascii STGR. -/
def MAGIC_BYTES : Bytes := [0x53, 0x54, 0x47, 0x52]

/-- Current replay format version constant from replay/mod.rs. -/
def REPLAY_FORMAT_VERSION : Nat := 1

/-- Mirror of encode_be_u32 from encoder.rs. -/
def encode_be_u32 (v : Nat) : Bytes := beBytes 4 v

/-- Mirror of encode_be_u64 from encoder.rs. -/
def encode_be_u64 (v : Nat) : Bytes := beBytes 8 v

/-- Mirror of length_encoded from encoder.rs: u64 length prefix, then the
body (the Rust code skips the write for an empty body, which emits the same
bytes as appending the empty buffer). -/
def length_encoded (body : Bytes) : Bytes := encode_be_u64 body.length ++ body

/-- Mirror of encode_vec from encoder.rs: u64 element count, then each
element encoded in order with no extra framing. -/
def encode_vec {α : Type} (values : List α) (item : α → Bytes) : Bytes :=
  encode_be_u64 values.length ++ (values.map item).flatten

/-- Mirror of Replay::record from replay/mod.rs. The Rust method mutates the
log and returns Result of unit; the model returns the outcome together with
the state after the call. -/
def Replay.record {W I : Type} (r : Replay W I) (turn : Nat) (inputs : List I) :
    Except GenericError Unit × Replay W I :=
  match r.inputs.getLast? with
  | some (lastTurn, _) =>
    if lastTurn ≥ turn then (.error (.IncoherentTurn lastTurn turn), r)
    else (.ok (), { r with inputs := r.inputs ++ [(turn, inputs)] })
  | none => (.ok (), { r with inputs := r.inputs ++ [(turn, inputs)] })

/-- Per-input encoder used inside Replay::encode: a length-prefixed
serialized input. -/
def inputEnc {W I : Type} (C : WorldCodec W I) (i : I) : Bytes :=
  length_encoded (C.serI i)

/-- Per-turn encoder used inside Replay::encode: the u64 turn number
followed by the vector of length-prefixed inputs. -/
def turnEnc {W I : Type} (C : WorldCodec W I) (p : Nat × List I) : Bytes :=
  encode_be_u64 p.1 ++ encode_vec p.2 (inputEnc C)

/-- Mirror of Replay::encode from replay/mod.rs: core magic, core version,
game magic, game version, rate, length-prefixed initial state, then the turn
log as a vector of turn number plus vector of length-prefixed inputs. -/
def Replay.encode {W I : Type} (C : WorldCodec W I) (r : Replay W I) : Bytes :=
  MAGIC_BYTES ++ encode_be_u32 REPLAY_FORMAT_VERSION ++ C.magicBytes
    ++ encode_be_u32 C.currentVersion ++ encode_be_u32 r.rate
    ++ length_encoded (C.serW r.initial)
    ++ encode_vec r.inputs (turnEnc C)

/-- Mirror of parse_magic from replay/mod.rs. -/
def parse_magic (input : Bytes) : PResult Unit :=
  (take_s 4 input).bind fun rest magic =>
    if magic ≠ MAGIC_BYTES then .failure (.InvalidMagic magic) else .ok rest ()

/-- Mirror of parse_game_magic from replay/mod.rs. -/
def parse_game_magic {W I : Type} (C : WorldCodec W I) (input : Bytes) : PResult Unit :=
  (take_s 4 input).bind fun rest magic =>
    if magic ≠ C.magicBytes then .failure (.InvalidMagic magic) else .ok rest ()

/-- Mirror of parse_core_version from replay/mod.rs. -/
def parse_core_version (input : Bytes) : PResult Nat :=
  (be_u32_s input).bind fun rest version =>
    if version ≠ REPLAY_FORMAT_VERSION then .failure (.UnsupportedCoreVersion version)
    else .ok rest version

/-- Mirror of parse_game_version from replay/mod.rs. -/
def parse_game_version {W I : Type} (C : WorldCodec W I) (input : Bytes) : PResult Nat :=
  (be_u32_s input).bind fun rest version =>
    if C.guardVersion version then .ok rest version
    else .failure (.UnsupportedGameVersion version)

/-- Mirror of parse_input from replay/mod.rs: a zero-length input block
(length_decoding yielding none) is the fatal MissingTurnInput failure. -/
def parse_input {W I : Type} (C : WorldCodec W I) (input : Bytes) : PResult I :=
  (pcontext "turn input" (length_decoding (ciborium_parse C.deSerI)) input).bind fun rest opt =>
    match opt with
    | some v => .ok rest v
    | none => .failure .MissingTurnInput

/-- Mirror of parse_turn from replay/mod.rs: streaming u64 turn number, then
the vector of inputs. -/
def parse_turn {W I : Type} (C : WorldCodec W I) (input : Bytes) : PResult (Nat × List I) :=
  (pcontext "turn number" be_u64_s input).bind fun rest turn =>
    (pcontext "turn inputs" (decode_vec (parse_input C)) rest).bind fun rest2 ins =>
      .ok rest2 (turn, ins)

/-- Mirror of Replay::parser from replay/mod.rs, with the same context
labels; a none initial state falls back to the Default value. -/
def parseReplay {W I : Type} (C : WorldCodec W I) (input : Bytes) : PResult (Replay W I) :=
  (pcontext "core magic bytes" parse_magic input).bind fun i1 _ =>
    (pcontext "core version" parse_core_version i1).bind fun i2 _ =>
      (pcontext "game magic bytes" (parse_game_magic C) i2).bind fun i3 _ =>
        (pcontext "game version" (parse_game_version C) i3).bind fun i4 _ =>
          (pcontext "simulation rate" be_u32_s i4).bind fun i5 rate =>
            (pcontext "initial world" (length_decoding (ciborium_parse C.deSerW)) i5).bind
              fun i6 initialOpt =>
                (pcontext "inputs" (decode_vec (parse_turn C)) i6).bind fun i7 ins =>
                  .ok i7 { rate := rate, initial := initialOpt.getD C.defaultW, inputs := ins }

/-- Mirror of Replay::decode from replay/mod.rs: trailing input is dropped,
Incomplete is surfaced as the Incomplete error variant. -/
def Replay.decode {W I : Type} (C : WorldCodec W I) (bytes : Bytes) :
    Except GenericError (Replay W I) :=
  match parseReplay C bytes with
  | .ok _ v => .ok v
  | .incomplete n => .error (.Incomplete n)
  | .error e => .error e
  | .failure e => .error e

/-- Loop of Replay::load from replay/mod.rs over a list of read results (the
chunks the source delivers, after which every read returns zero bytes):
extend the buffer with the chunk, reparse the whole buffer; on Ok return the
value, on Incomplete remember the shortage and keep reading, on Error or
Failure abort with that error; a zero-byte read with a remembered shortage
aborts with Incomplete. The end of the chunk list unfolds the final
iterations at end of source. -/
def loadGo {W I : Type} (C : WorldCodec W I) :
    List Bytes → Bytes → Option Nat → Except GenericError (Replay W I)
  | [], _, some needed => .error (.Incomplete needed)
  | [], buff, none =>
    match parseReplay C buff with
    | .ok _ v => .ok v
    | .incomplete n => .error (.Incomplete n)
    | .error e => .error e
    | .failure e => .error e
  | chunk :: rest, buff, lastNeeded =>
    if chunk.isEmpty then
      match lastNeeded with
      | some needed => .error (.Incomplete needed)
      | none =>
        match parseReplay C buff with
        | .ok _ v => .ok v
        | .incomplete n => loadGo C rest buff (some n)
        | .error e => .error e
        | .failure e => .error e
    else
      match parseReplay C (buff ++ chunk) with
      | .ok _ v => .ok v
      | .incomplete n => loadGo C rest (buff ++ chunk) (some n)
      | .error e => .error e
      | .failure e => .error e

/-- Mirror of Replay::load from replay/mod.rs, abstracted over the sequence
of chunk reads the source delivers. -/
def Replay.load {W I : Type} (C : WorldCodec W I) (chunks : List Bytes) :
    Except GenericError (Replay W I) :=
  loadGo C chunks [] none

/-- Split a buffer into one-byte chunks, the delivery pattern of the chunked
load property. -/
def chunksOf1 (b : Bytes) : List Bytes := b.map (fun x => [x])

/-- Strict monotonicity of the turn log, the invariant the record method
maintains. -/
def TurnsStrictMono {I : Type} (log : List (Nat × List I)) : Prop :=
  log.Chain' (fun a b => a.1 < b.1)

/-- Serde/ciborium round trip of a payload codec: every serialization is
nonempty (a CBOR item is at least one byte), shorter than 2 to the 64 (a
Rust Vec length fits a u64), and deserializes back to the value. -/
def GoodSer {α : Type} (ser : α → Bytes) (deSer : Bytes → Option α) : Prop :=
  ∀ x, ser x ≠ [] ∧ (ser x).length < 2 ^ 64 ∧ deSer (ser x) = some x

/-- Bool payload instance used for concrete evaluations: serialization is
the CBOR encoding of a boolean (one byte, 0xf4 or 0xf5), as ciborium emits
and accepts for the bool serde instance. -/
def boolSer (b : Bool) : Bytes := [if b then 0xf5 else 0xf4]

/-- Bool payload deserializer matching ciborium::de::from_reader on the
exact slice of a CBOR boolean. -/
def boolDeSer (bs : Bytes) : Option Bool :=
  match bs with
  | [0xf4] => some false
  | [0xf5] => some true
  | _ => none

/-- Concrete codec mirroring the TestWorld1-style test worlds: magic TWD1,
version 1, default guard, Bool world and Bool inputs. -/
def BoolW : WorldCodec Bool Bool where
  magicBytes := [0x54, 0x57, 0x44, 0x31]
  magicLen := rfl
  currentVersion := 1
  guardVersion := defaultGuardVersion 1
  defaultW := false
  serW := boolSer
  deSerW := boolDeSer
  serI := boolSer
  deSerI := boolDeSer

/-- Concrete replay used by the witnesses: rate 60, initial true, a log of
three strictly increasing turns. -/
def exReplay : Replay Bool Bool :=
  { rate := 60, initial := true, inputs := [(0, []), (1, [true]), (2, [false, true])] }

/-- Concrete replay with an empty input log, kept small so the chunked load
loop evaluates quickly. -/
def exSmall : Replay Bool Bool := { rate := 60, initial := true, inputs := [] }

/-- Inner parser exhibiting that length_decoding does not require the
restricted slice to be fully consumed: it consumes exactly one byte. -/
def consumeOne : Bytes → PResult Nat := fun inp => .ok (inp.drop 1) 42

end Strategka

namespace Strategka

theorem beBytes_length (w v : Nat) : (beBytes w v).length = w := by
  induction w generalizing v with
  | zero => rfl
  | succ n ih => simp [beBytes, ih]

theorem beVal_append_one (bs : Bytes) (b : Nat) : beVal (bs ++ [b]) = beVal bs * 256 + b := by
  simp [beVal, List.foldl_append]

theorem beVal_beBytes (w v : Nat) : beVal (beBytes w v) = v % 256 ^ w := by
  induction w generalizing v with
  | zero => simp [beBytes, beVal, Nat.mod_one]
  | succ n ih =>
    rw [beBytes, beVal_append_one, ih, pow_succ, mul_comm (256 ^ n) 256, Nat.mod_mul]
    ring

theorem beVal_beBytes_of_lt {w v : Nat} (h : v < 256 ^ w) : beVal (beBytes w v) = v := by
  rw [beVal_beBytes, Nat.mod_eq_of_lt h]

theorem take_beBytes_append (w v : Nat) (rest : Bytes) :
    (beBytes w v ++ rest).take w = beBytes w v :=
  List.take_left' (beBytes_length w v)

theorem drop_beBytes_append (w v : Nat) (rest : Bytes) :
    (beBytes w v ++ rest).drop w = rest :=
  List.drop_left' (beBytes_length w v)

theorem take_s_append {a : Bytes} {n : Nat} (rest : Bytes) (h : a.length = n) :
    take_s n (a ++ rest) = .ok rest a := by
  subst h
  rw [take_s, if_neg (by simp), List.take_left, List.drop_left]

theorem be_u32_s_append {v : Nat} (rest : Bytes) (h : v < 2 ^ 32) :
    be_u32_s (beBytes 4 v ++ rest) = .ok rest v := by
  rw [be_u32_s, if_neg (by simp [beBytes_length]), take_beBytes_append, drop_beBytes_append,
    beVal_beBytes_of_lt (by norm_num at h ⊢; omega)]

theorem be_u64_s_append {v : Nat} (rest : Bytes) (h : v < 2 ^ 64) :
    be_u64_s (beBytes 8 v ++ rest) = .ok rest v := by
  rw [be_u64_s, if_neg (by simp [beBytes_length]), take_beBytes_append, drop_beBytes_append,
    beVal_beBytes_of_lt (by norm_num at h ⊢; omega)]

theorem be_u64_c_append {v : Nat} (rest : Bytes) (h : v < 2 ^ 64) :
    be_u64_c (beBytes 8 v ++ rest) = .ok rest v := by
  rw [be_u64_c, if_neg (by simp [beBytes_length]), take_beBytes_append, drop_beBytes_append,
    beVal_beBytes_of_lt (by norm_num at h ⊢; omega)]

theorem pcontext_ok {α : Type} {p : Bytes → PResult α} {input rest : Bytes} {v : α}
    (label : String) (h : p input = .ok rest v) : pcontext label p input = .ok rest v := by
  rw [pcontext, h]

end Strategka

namespace Strategka

theorem length_decoding_ok {α : Type} {f : Bytes → PResult α} {body leftover : Bytes} {v : α}
    (rest : Bytes) (hne : body ≠ []) (hsm : body.length < 2 ^ 64)
    (hf : f body = .ok leftover v) :
    length_decoding f (beBytes 8 body.length ++ (body ++ rest)) = .ok rest (some v) := by
  rw [length_decoding, pcontext_ok _ (be_u64_c_append (body ++ rest) hsm)]
  simp only [PResult.bind]
  rw [if_neg (by simp), if_neg (fun h => hne (List.length_eq_zero.mp h)), List.take_left,
    pcontext_ok _ hf, List.drop_left]

theorem length_decoding_zero {α : Type} (f : Bytes → PResult α) (rest : Bytes) :
    length_decoding f (beBytes 8 0 ++ rest) = .ok rest none := by
  rw [length_decoding, pcontext_ok _ (be_u64_c_append rest (by norm_num))]
  simp [PResult.bind]

theorem length_decoding_short {α : Type} (f : Bytes → PResult α) {len : Nat} (rest : Bytes)
    (hsm : len < 2 ^ 64) (hshort : rest.length < len) :
    length_decoding f (beBytes 8 len ++ rest) = .error (.InvalidLength len rest.length) := by
  rw [length_decoding, pcontext_ok _ (be_u64_c_append rest hsm)]
  simp only [PResult.bind]
  rw [if_pos hshort]

theorem decode_vec_go_append {α : Type} (item : Bytes → PResult α) (itemEnc : α → Bytes) :
    ∀ (values : List α) (rest : Bytes),
      (∀ x ∈ values, ∀ rr : Bytes, item (itemEnc x ++ rr) = .ok rr x) →
      decode_vec_go item values.length ((values.map itemEnc).flatten ++ rest) = .ok rest values
  | [], rest, _ => by simp [decode_vec_go]
  | x :: xs, rest, h => by
    have hx := h x (List.mem_cons_self x xs) ((xs.map itemEnc).flatten ++ rest)
    have ihx := decode_vec_go_append item itemEnc xs rest
      (fun y hy rr => h y (List.mem_cons_of_mem x hy) rr)
    rw [List.length_cons, List.map_cons, List.flatten_cons, List.append_assoc, decode_vec_go,
      pcontext_ok _ hx]
    simp only [PResult.bind, ihx]

theorem decode_vec_append {α : Type} {item : Bytes → PResult α} {itemEnc : α → Bytes}
    {values : List α} (rest : Bytes) (hlen : values.length < 2 ^ 64)
    (h : ∀ x ∈ values, ∀ rr : Bytes, item (itemEnc x ++ rr) = .ok rr x) :
    decode_vec item (beBytes 8 values.length ++ ((values.map itemEnc).flatten ++ rest))
      = .ok rest values := by
  rw [decode_vec, pcontext_ok _ (be_u64_c_append _ hlen)]
  simp only [PResult.bind]
  exact decode_vec_go_append item itemEnc values rest h

theorem ciborium_parse_ser {α : Type} {ser : α → Bytes} {deSer : Bytes → Option α}
    (hg : GoodSer ser deSer) (x : α) : ciborium_parse deSer (ser x) = .ok [] x := by
  rw [ciborium_parse, (hg x).2.2]

theorem parse_input_append {W I : Type} {C : WorldCodec W I} (hI : GoodSer C.serI C.deSerI)
    (i : I) (rest : Bytes) : parse_input C (inputEnc C i ++ rest) = .ok rest i := by
  have h1 : length_decoding (ciborium_parse C.deSerI)
      (beBytes 8 (C.serI i).length ++ (C.serI i ++ rest)) = .ok rest (some i) :=
    length_decoding_ok rest (hI i).1 (hI i).2.1 (ciborium_parse_ser hI i)
  rw [inputEnc, length_encoded, encode_be_u64, List.append_assoc, parse_input,
    pcontext_ok _ h1]
  rfl

theorem parse_turn_append {W I : Type} {C : WorldCodec W I} (hI : GoodSer C.serI C.deSerI)
    (p : Nat × List I) (rest : Bytes) (ht : p.1 < 2 ^ 64) (hl : p.2.length < 2 ^ 64) :
    parse_turn C (turnEnc C p ++ rest) = .ok rest p := by
  have h2 : decode_vec (parse_input C)
      (beBytes 8 p.2.length ++ ((p.2.map (inputEnc C)).flatten ++ rest)) = .ok rest p.2 :=
    decode_vec_append rest hl (fun x _ rr => parse_input_append hI x rr)
  rw [turnEnc, encode_vec, encode_be_u64, encode_be_u64, List.append_assoc, List.append_assoc,
    parse_turn, pcontext_ok _ (be_u64_s_append _ ht)]
  simp only [PResult.bind]
  rw [pcontext_ok _ h2]

theorem parse_magic_ok (X : Bytes) : parse_magic (MAGIC_BYTES ++ X) = .ok X () := by
  rw [parse_magic, take_s_append X (by rfl)]
  simp [PResult.bind, MAGIC_BYTES]

theorem parse_game_magic_ok {W I : Type} (C : WorldCodec W I) (X : Bytes) :
    parse_game_magic C (C.magicBytes ++ X) = .ok X () := by
  rw [parse_game_magic, take_s_append X C.magicLen]
  simp [PResult.bind]

theorem parse_core_version_ok (X : Bytes) :
    parse_core_version (beBytes 4 REPLAY_FORMAT_VERSION ++ X) = .ok X REPLAY_FORMAT_VERSION := by
  rw [parse_core_version, be_u32_s_append X (by norm_num [REPLAY_FORMAT_VERSION])]
  simp [PResult.bind]

theorem parse_game_version_ok {W I : Type} (C : WorldCodec W I) {v : Nat} (X : Bytes)
    (hv : v < 2 ^ 32) (hg : C.guardVersion v = true) :
    parse_game_version C (beBytes 4 v ++ X) = .ok X v := by
  rw [parse_game_version, be_u32_s_append X hv]
  simp [PResult.bind, hg]

theorem parseReplay_encode {W I : Type} (C : WorldCodec W I) (r : Replay W I) (rest : Bytes)
    (hW : GoodSer C.serW C.deSerW) (hI : GoodSer C.serI C.deSerI)
    (hguard : C.guardVersion C.currentVersion = true)
    (hcv : C.currentVersion < 2 ^ 32) (hrate : r.rate < 2 ^ 32)
    (hturns : ∀ p ∈ r.inputs, p.1 < 2 ^ 64 ∧ p.2.length < 2 ^ 64)
    (hlen : r.inputs.length < 2 ^ 64) :
    parseReplay C (Replay.encode C r ++ rest) = .ok rest r := by
  obtain ⟨rate, initial, inputs⟩ := r
  simp only [Replay.encode, encode_be_u32, encode_vec, encode_be_u64, List.append_assoc] at *
  rw [parseReplay, pcontext_ok _ (parse_magic_ok _)]
  simp only [PResult.bind]
  rw [pcontext_ok _ (parse_core_version_ok _)]
  simp only [PResult.bind]
  rw [pcontext_ok _ (parse_game_magic_ok C _)]
  simp only [PResult.bind]
  rw [pcontext_ok _ (parse_game_version_ok C _ hcv hguard)]
  simp only [PResult.bind]
  rw [pcontext_ok _ (be_u32_s_append _ hrate)]
  simp only [PResult.bind]
  rw [length_encoded, encode_be_u64, List.append_assoc,
    pcontext_ok _ (length_decoding_ok _ (hW initial).1 (hW initial).2.1
      (ciborium_parse_ser hW initial))]
  simp only [PResult.bind]
  rw [pcontext_ok _ (decode_vec_append rest hlen
    (fun p hp rr => parse_turn_append hI p rr (hturns p hp).1 (hturns p hp).2))]
  simp [PResult.bind]

end Strategka

namespace Strategka

theorem pcontext_failure {α : Type} {p : Bytes → PResult α} {input : Bytes} {e : GenericError}
    (label : String) (h : p input = .failure e) :
    pcontext label p input = .failure (.Context label e) := by
  rw [pcontext, h]

theorem pcontext_error {α : Type} {p : Bytes → PResult α} {input : Bytes} {e : GenericError}
    (label : String) (h : p input = .error e) :
    pcontext label p input = .error (.Context label e) := by
  rw [pcontext, h]

theorem decode_of_ok {W I : Type} {C : WorldCodec W I} {b rest : Bytes} {v : Replay W I}
    (h : parseReplay C b = .ok rest v) : Replay.decode C b = .ok v := by
  rw [Replay.decode, h]

theorem decode_of_failure {W I : Type} {C : WorldCodec W I} {b : Bytes} {e : GenericError}
    (h : parseReplay C b = .failure e) : Replay.decode C b = .error e := by
  rw [Replay.decode, h]

theorem decode_of_error {W I : Type} {C : WorldCodec W I} {b : Bytes} {e : GenericError}
    (h : parseReplay C b = .error e) : Replay.decode C b = .error e := by
  rw [Replay.decode, h]

theorem encode_regroup {W I : Type} (C : WorldCodec W I) (r : Replay W I) :
    Replay.encode C r = MAGIC_BYTES ++ (encode_be_u32 REPLAY_FORMAT_VERSION ++ (C.magicBytes
      ++ (encode_be_u32 C.currentVersion ++ (encode_be_u32 r.rate
      ++ (length_encoded (C.serW r.initial) ++ encode_vec r.inputs (turnEnc C)))))) := by
  simp [Replay.encode, List.append_assoc]

theorem encode_take_4 {W I : Type} (C : WorldCodec W I) (r : Replay W I) :
    (Replay.encode C r).take 4 = MAGIC_BYTES := by
  rw [encode_regroup]
  exact List.take_left' rfl

theorem encode_take_8 {W I : Type} (C : WorldCodec W I) (r : Replay W I) :
    (Replay.encode C r).take 8 = MAGIC_BYTES ++ encode_be_u32 REPLAY_FORMAT_VERSION := by
  rw [encode_regroup, ← List.append_assoc]
  exact List.take_left' (by simp [MAGIC_BYTES, encode_be_u32, beBytes_length])

theorem encode_take_12 {W I : Type} (C : WorldCodec W I) (r : Replay W I) :
    (Replay.encode C r).take 12
      = MAGIC_BYTES ++ (encode_be_u32 REPLAY_FORMAT_VERSION ++ C.magicBytes) := by
  rw [encode_regroup, ← List.append_assoc, ← List.append_assoc]
  exact List.take_left' (by simp [MAGIC_BYTES, encode_be_u32, beBytes_length, C.magicLen])

theorem parse_magic_bad {m : Bytes} (X : Bytes) (hm4 : m.length = 4) (hm : m ≠ MAGIC_BYTES) :
    parse_magic (m ++ X) = .failure (.InvalidMagic m) := by
  rw [parse_magic, take_s_append X hm4]
  simp only [PResult.bind]
  rw [if_pos hm]

theorem parseReplay_bad_magic {W I : Type} (C : WorldCodec W I) {m : Bytes} (X : Bytes)
    (hm4 : m.length = 4) (hm : m ≠ MAGIC_BYTES) :
    parseReplay C (m ++ X) = .failure (.Context "core magic bytes" (.InvalidMagic m)) := by
  rw [parseReplay, pcontext_failure _ (parse_magic_bad X hm4 hm)]
  rfl

theorem parseReplay_bad_game_magic {W I : Type} (C : WorldCodec W I) {g : Bytes} (X : Bytes)
    (hg4 : g.length = 4) (hg : g ≠ C.magicBytes) :
    parseReplay C (MAGIC_BYTES ++ (encode_be_u32 REPLAY_FORMAT_VERSION ++ (g ++ X)))
      = .failure (.Context "game magic bytes" (.InvalidMagic g)) := by
  have h : parse_game_magic C (g ++ X) = .failure (.InvalidMagic g) := by
    rw [parse_game_magic, take_s_append X hg4]
    simp only [PResult.bind]
    rw [if_pos hg]
  rw [parseReplay, pcontext_ok _ (parse_magic_ok _)]
  simp only [PResult.bind, encode_be_u32]
  rw [pcontext_ok _ (parse_core_version_ok _)]
  simp only [PResult.bind]
  rw [pcontext_failure _ h]

theorem parseReplay_bad_core_version {W I : Type} (C : WorldCodec W I) {v : Nat} (X : Bytes)
    (hv : v < 2 ^ 32) (hne : v ≠ REPLAY_FORMAT_VERSION) :
    parseReplay C (MAGIC_BYTES ++ (beBytes 4 v ++ X))
      = .failure (.Context "core version" (.UnsupportedCoreVersion v)) := by
  have h : parse_core_version (beBytes 4 v ++ X) = .failure (.UnsupportedCoreVersion v) := by
    rw [parse_core_version, be_u32_s_append X hv]
    simp only [PResult.bind]
    rw [if_pos hne]
  rw [parseReplay, pcontext_ok _ (parse_magic_ok _)]
  simp only [PResult.bind]
  rw [pcontext_failure _ h]

theorem parseReplay_bad_game_version {W I : Type} (C : WorldCodec W I) {v : Nat} (X : Bytes)
    (hv : v < 2 ^ 32) (hbad : C.guardVersion v = false) :
    parseReplay C (MAGIC_BYTES ++ (encode_be_u32 REPLAY_FORMAT_VERSION
        ++ (C.magicBytes ++ (beBytes 4 v ++ X))))
      = .failure (.Context "game version" (.UnsupportedGameVersion v)) := by
  have h : parse_game_version C (beBytes 4 v ++ X) = .failure (.UnsupportedGameVersion v) := by
    rw [parse_game_version, be_u32_s_append X hv]
    simp only [PResult.bind]
    rw [if_neg (by rw [hbad]; exact Bool.false_ne_true)]
  rw [parseReplay, pcontext_ok _ (parse_magic_ok _)]
  simp only [PResult.bind, encode_be_u32]
  rw [pcontext_ok _ (parse_core_version_ok _)]
  simp only [PResult.bind]
  rw [pcontext_ok _ (parse_game_magic_ok C _)]
  simp only [PResult.bind]
  rw [pcontext_failure _ h]

end Strategka

namespace Strategka

theorem parseReplay_header {W I : Type} (C : WorldCodec W I) {rate : Nat} (tail : Bytes)
    (hguard : C.guardVersion C.currentVersion = true) (hcv : C.currentVersion < 2 ^ 32)
    (hrate : rate < 2 ^ 32) :
    parseReplay C (MAGIC_BYTES ++ (encode_be_u32 REPLAY_FORMAT_VERSION ++ (C.magicBytes
        ++ (encode_be_u32 C.currentVersion ++ (encode_be_u32 rate ++ tail)))))
      = (pcontext "initial world" (length_decoding (ciborium_parse C.deSerW)) tail).bind
          (fun i6 initialOpt =>
            (pcontext "inputs" (decode_vec (parse_turn C)) i6).bind fun i7 ins =>
              .ok i7 { rate := rate, initial := initialOpt.getD C.defaultW, inputs := ins }) := by
  rw [parseReplay, pcontext_ok _ (parse_magic_ok _)]
  simp only [PResult.bind, encode_be_u32]
  rw [pcontext_ok _ (parse_core_version_ok _)]
  simp only [PResult.bind]
  rw [pcontext_ok _ (parse_game_magic_ok C _)]
  simp only [PResult.bind]
  rw [pcontext_ok _ (parse_game_version_ok C _ hcv hguard)]
  simp only [PResult.bind]
  rw [pcontext_ok _ (be_u32_s_append _ hrate)]

theorem parse_input_zero {W I : Type} (C : WorldCodec W I) (Y : Bytes) :
    parse_input C (beBytes 8 0 ++ Y) = .failure .MissingTurnInput := by
  rw [parse_input, pcontext_ok _ (length_decoding_zero _ Y)]
  rfl

theorem decode_vec_parse_input_zero {W I : Type} (C : WorldCodec W I) (Y : Bytes) :
    decode_vec (parse_input C) (beBytes 8 1 ++ (beBytes 8 0 ++ Y))
      = .failure (.Context "vector item" .MissingTurnInput) := by
  rw [decode_vec, pcontext_ok _ (be_u64_c_append _ (by norm_num))]
  simp only [PResult.bind, decode_vec_go]
  rw [pcontext_failure _ (parse_input_zero C Y)]

theorem parse_turn_missing {W I : Type} (C : WorldCodec W I) {t : Nat} (Y : Bytes)
    (ht : t < 2 ^ 64) :
    parse_turn C (beBytes 8 t ++ (beBytes 8 1 ++ (beBytes 8 0 ++ Y)))
      = .failure (.Context "turn inputs" (.Context "vector item" .MissingTurnInput)) := by
  rw [parse_turn, pcontext_ok _ (be_u64_s_append _ ht)]
  simp only [PResult.bind]
  rw [pcontext_failure _ (decode_vec_parse_input_zero C Y)]

theorem decode_vec_turn_missing {W I : Type} (C : WorldCodec W I) {t : Nat} (Y : Bytes)
    (ht : t < 2 ^ 64) :
    decode_vec (parse_turn C) (beBytes 8 1 ++ (beBytes 8 t ++ (beBytes 8 1 ++ (beBytes 8 0 ++ Y))))
      = .failure (.Context "vector item"
          (.Context "turn inputs" (.Context "vector item" .MissingTurnInput))) := by
  rw [decode_vec, pcontext_ok _ (be_u64_c_append _ (by norm_num))]
  simp only [PResult.bind, decode_vec_go]
  rw [pcontext_failure _ (parse_turn_missing C Y ht)]

end Strategka

namespace Strategka

theorem goodSer_bool : GoodSer boolSer boolDeSer := by
  intro x
  cases x <;> exact ⟨by decide, by decide, by decide⟩

theorem mono_exReplay : TurnsStrictMono exReplay.inputs := by
  unfold TurnsStrictMono exReplay
  exact List.Chain'.cons (by norm_num)
    (List.Chain'.cons (by norm_num) (List.chain'_singleton _))

/-- Claim C1: for every Replay value (any rate and initial state within the
machine widths, any turn log with strictly increasing turns) over a payload
codec with the serde round-trip property, decoding the encoded bytes yields
the same Replay. -/
theorem claim_C1_roundtrip {W I : Type} (C : WorldCodec W I) (r : Replay W I)
    (hW : GoodSer C.serW C.deSerW) (hI : GoodSer C.serI C.deSerI)
    (hguard : C.guardVersion C.currentVersion = true)
    (hcv : C.currentVersion < 2 ^ 32) (hrate : r.rate < 2 ^ 32)
    (_hmono : TurnsStrictMono r.inputs)
    (hturns : ∀ p ∈ r.inputs, p.1 < 2 ^ 64 ∧ p.2.length < 2 ^ 64)
    (hlen : r.inputs.length < 2 ^ 64) :
    Replay.decode C (Replay.encode C r) = .ok r := by
  have h := parseReplay_encode C r [] hW hI hguard hcv hrate hturns hlen
  rw [List.append_nil] at h
  exact decode_of_ok h

/-- Witness for claim C1 at the concrete Bool codec and example replay. -/
theorem claim_C1_roundtrip_witness :
    Replay.decode BoolW (Replay.encode BoolW exReplay) = .ok exReplay :=
  claim_C1_roundtrip BoolW exReplay goodSer_bool goodSer_bool (by decide) (by decide)
    (by decide) mono_exReplay (by decide) (by decide)

/-- Claim C10: a buffer that begins with a complete valid container decodes
to the replay of that prefix, ignoring arbitrary trailing bytes. -/
theorem claim_C10_trailing {W I : Type} (C : WorldCodec W I) (r : Replay W I) (extra : Bytes)
    (hW : GoodSer C.serW C.deSerW) (hI : GoodSer C.serI C.deSerI)
    (hguard : C.guardVersion C.currentVersion = true)
    (hcv : C.currentVersion < 2 ^ 32) (hrate : r.rate < 2 ^ 32)
    (hturns : ∀ p ∈ r.inputs, p.1 < 2 ^ 64 ∧ p.2.length < 2 ^ 64)
    (hlen : r.inputs.length < 2 ^ 64) :
    Replay.decode C (Replay.encode C r ++ extra) = Replay.decode C (Replay.encode C r) := by
  have h0 := parseReplay_encode C r [] hW hI hguard hcv hrate hturns hlen
  rw [List.append_nil] at h0
  rw [decode_of_ok (parseReplay_encode C r extra hW hI hguard hcv hrate hturns hlen),
    decode_of_ok h0]

/-- Witness for claim C10: three trailing garbage bytes are ignored. -/
theorem claim_C10_trailing_witness :
    Replay.decode BoolW (Replay.encode BoolW exReplay ++ [0, 255, 17])
      = Replay.decode BoolW (Replay.encode BoolW exReplay) :=
  claim_C10_trailing BoolW exReplay [0, 255, 17] goodSer_bool goodSer_bool (by decide)
    (by decide) (by decide) (by decide) (by decide)

/-- Claim C3: with a nonempty log whose last recorded turn is t0, record
fails with IncoherentTurn and leaves the replay unchanged exactly when the
new turn is at most t0; when the new turn is greater (or the log is empty)
it succeeds and appends exactly the new entry at the end. -/
theorem claim_C3_record {W I : Type} (r : Replay W I) (t : Nat) (ins : List I) :
    (∀ t0 xs0, r.inputs.getLast? = some (t0, xs0) →
      ((r.record t ins = (.error (.IncoherentTurn t0 t), r)) ↔ t ≤ t0)
      ∧ (t0 < t → r.record t ins = (.ok (), { r with inputs := r.inputs ++ [(t, ins)] })))
    ∧ (r.inputs.getLast? = none →
      r.record t ins = (.ok (), { r with inputs := r.inputs ++ [(t, ins)] })) := by
  refine ⟨fun t0 xs0 hlast => ?_, fun hnone => ?_⟩
  · simp only [Replay.record, hlast]
    by_cases h : t0 ≥ t
    · rw [if_pos h]
      exact ⟨⟨fun _ => h, fun _ => rfl⟩, fun hlt => absurd h (by omega)⟩
    · rw [if_neg h]
      refine ⟨⟨fun hcon => absurd (congrArg Prod.fst hcon) (by simp),
        fun hle => absurd hle (by omega)⟩, fun _ => rfl⟩
  · simp only [Replay.record, hnone]

/-- Witness for claim C3: recording turn 2 after last turn 2 fails and
leaves the log intact; recording turn 3 appends exactly the new entry. -/
theorem claim_C3_record_witness :
    exReplay.record 2 [true] = (.error (.IncoherentTurn 2 2), exReplay)
      ∧ exReplay.record 3 [true]
        = (.ok (), { exReplay with inputs := exReplay.inputs ++ [(3, [true])] }) :=
  ⟨((claim_C3_record exReplay 2 [true]).1 2 [false, true] (by decide)).1.mpr (by decide),
   ((claim_C3_record exReplay 3 [true]).1 2 [false, true] (by decide)).2 (by decide)⟩

/-- Claim C4 counterexample: length_decoding does not require the inner
parser to consume the restricted slice. With declared length 2, both bytes
available, and an inner parser that consumes only the first byte (leaving
the nonempty remainder [8] of the restricted slice [7, 8] unconsumed),
length_decoding nevertheless succeeds. -/
theorem claim_C4_counterexample :
    length_decoding consumeOne [0, 0, 0, 0, 0, 0, 0, 2, 7, 8] = .ok [] (some 42)
      ∧ consumeOne [7, 8] = .ok [8] 42 ∧ ([8] : Bytes) ≠ [] :=
  ⟨by decide, by decide, by decide⟩

/-- Claim C4 as amended: for a nonzero declared length L with at least L
bytes remaining, length_decoding runs the inner parser on exactly the first
L bytes and succeeds whenever the inner parser succeeds there, regardless of
how much of that slice the inner parser consumed; the unconsumed remainder
is discarded and the parse position advances past the whole block. -/
theorem claim_C4_amended {α : Type} (f : Bytes → PResult α) (body leftover : Bytes) (v : α)
    (rest : Bytes) (hne : body ≠ []) (hsm : body.length < 2 ^ 64)
    (hf : f body = .ok leftover v) :
    length_decoding f (beBytes 8 body.length ++ (body ++ rest)) = .ok rest (some v) :=
  length_decoding_ok rest hne hsm hf

/-- Witness for the amended claim C4, at the one-byte-consuming inner parser
and the two-byte body. -/
theorem claim_C4_amended_witness :
    length_decoding consumeOne (beBytes 8 (([7, 8] : Bytes)).length ++ ([7, 8] ++ [9]))
      = .ok [9] (some 42) :=
  claim_C4_amended consumeOne [7, 8] [8] 42 [9] (by decide) (by decide) (by decide)

/-- Claim C5: after reading a u64 length prefix L, if fewer than L bytes
remain then length_decoding fails with InvalidLength carrying the declared
length and the number of available bytes. -/
theorem claim_C5_invalid_length {α : Type} (f : Bytes → PResult α) (len : Nat) (rest : Bytes)
    (hsm : len < 2 ^ 64) (hshort : rest.length < len) :
    length_decoding f (beBytes 8 len ++ rest) = .error (.InvalidLength len rest.length) :=
  length_decoding_short f rest hsm hshort

/-- Witness for claim C5: length 5 declared, two bytes available. -/
theorem claim_C5_invalid_length_witness :
    length_decoding (ciborium_parse boolDeSer) (beBytes 8 5 ++ [1, 2])
      = .error (.InvalidLength 5 2) :=
  claim_C5_invalid_length (ciborium_parse boolDeSer) 5 [1, 2] (by decide) (by decide)

end Strategka

namespace Strategka

/-- Claim C2 counterexample: the encoded container of the small example
replay is valid, and load succeeds on it when it arrives as one chunk; yet
load over the very same container delivered in one-byte chunks aborts with a
fatal parsing error (not Incomplete) once the accumulated buffer holds
exactly the 20-byte fixed header: the reparse of the whole buffer reads the
initial block's length prefix with a complete-variant u64 reader, which
reports Eof as an ordinary error, and load treats it as fatal. -/
theorem claim_C2_counterexample :
    Replay.load BoolW [Replay.encode BoolW exSmall] = .ok exSmall
      ∧ Replay.load BoolW (chunksOf1 (Replay.encode BoolW exSmall))
        = .error (.Context "initial world" (.Context "block length" (.Parsing [] .Eof))) :=
  ⟨rfl, rfl⟩

/-- Claim C2 as amended: delivering a valid container to load as a single
chunk succeeds and returns the decoded replay; the equivalence with one-byte
delivery does not hold, because a buffer that ends at or inside a
length-prefixed block makes the whole-buffer reparse fail fatally instead of
reporting that more bytes are needed. -/
theorem claim_C2_amended {W I : Type} (C : WorldCodec W I) (r : Replay W I)
    (hW : GoodSer C.serW C.deSerW) (hI : GoodSer C.serI C.deSerI)
    (hguard : C.guardVersion C.currentVersion = true)
    (hcv : C.currentVersion < 2 ^ 32) (hrate : r.rate < 2 ^ 32)
    (hturns : ∀ p ∈ r.inputs, p.1 < 2 ^ 64 ∧ p.2.length < 2 ^ 64)
    (hlen : r.inputs.length < 2 ^ 64) :
    Replay.load C [Replay.encode C r] = .ok r := by
  have hok : parseReplay C (Replay.encode C r) = .ok [] r := by
    have h := parseReplay_encode C r [] hW hI hguard hcv hrate hturns hlen
    rwa [List.append_nil] at h
  have hne : (Replay.encode C r).isEmpty = false := by
    rw [encode_regroup]
    rfl
  rw [Replay.load]
  simp [loadGo, hne, hok]

/-- Witness for the amended claim C2 at the example replay. -/
theorem claim_C2_amended_witness :
    Replay.load BoolW [Replay.encode BoolW exReplay] = .ok exReplay :=
  claim_C2_amended BoolW exReplay goodSer_bool goodSer_bool (by decide) (by decide)
    (by decide) (by decide) (by decide)

/-- Claim C6: replacing the 4 core magic bytes of an otherwise valid
container with any other 4 bytes makes decode fail with InvalidMagic
carrying the bytes found (under the core magic context label); replacing the
4 game magic bytes likewise fails with InvalidMagic under the game magic
label. In both cases decode returns an error, never a replay. -/
theorem claim_C6_magic {W I : Type} (C : WorldCodec W I) (r : Replay W I) (m g : Bytes)
    (hm4 : m.length = 4) (hm : m ≠ MAGIC_BYTES) (hg4 : g.length = 4) (hg : g ≠ C.magicBytes) :
    Replay.decode C (m ++ (Replay.encode C r).drop 4)
        = .error (.Context "core magic bytes" (.InvalidMagic m))
      ∧ Replay.decode C ((Replay.encode C r).take 8 ++ (g ++ (Replay.encode C r).drop 12))
        = .error (.Context "game magic bytes" (.InvalidMagic g)) := by
  constructor
  · exact decode_of_failure (parseReplay_bad_magic C _ hm4 hm)
  · rw [encode_take_8, List.append_assoc]
    exact decode_of_failure (parseReplay_bad_game_magic C _ hg4 hg)

/-- Witness for claim C6 at concrete corrupted magic fields. -/
theorem claim_C6_magic_witness :
    Replay.decode BoolW ([9, 9, 9, 9] ++ (Replay.encode BoolW exSmall).drop 4)
        = .error (.Context "core magic bytes" (.InvalidMagic [9, 9, 9, 9]))
      ∧ Replay.decode BoolW ((Replay.encode BoolW exSmall).take 8
          ++ ([1, 2, 3, 4] ++ (Replay.encode BoolW exSmall).drop 12))
        = .error (.Context "game magic bytes" (.InvalidMagic [1, 2, 3, 4])) :=
  claim_C6_magic BoolW exSmall [9, 9, 9, 9] [1, 2, 3, 4] (by decide) (by decide)
    (by decide) (by decide)

/-- Claim C7: a container whose stored core version differs from the
supported format version fails with UnsupportedCoreVersion; one whose stored
game version is rejected by guard_version fails with UnsupportedGameVersion;
and the default guard_version rejects exactly the versions different from
the current one. -/
theorem claim_C7_version {W I : Type} (C : WorldCodec W I) (r : Replay W I) (v cur : Nat)
    (hv : v < 2 ^ 32) :
    (v ≠ REPLAY_FORMAT_VERSION →
      Replay.decode C ((Replay.encode C r).take 4 ++ (beBytes 4 v ++ (Replay.encode C r).drop 8))
        = .error (.Context "core version" (.UnsupportedCoreVersion v)))
    ∧ (C.guardVersion v = false →
      Replay.decode C ((Replay.encode C r).take 12
          ++ (beBytes 4 v ++ (Replay.encode C r).drop 16))
        = .error (.Context "game version" (.UnsupportedGameVersion v)))
    ∧ (defaultGuardVersion cur v = false ↔ v ≠ cur) := by
  refine ⟨fun hne => ?_, fun hbad => ?_, ?_⟩
  · rw [encode_take_4]
    exact decode_of_failure (parseReplay_bad_core_version C _ hv hne)
  · rw [encode_take_12, List.append_assoc, List.append_assoc]
    exact decode_of_failure (parseReplay_bad_game_version C _ hv hbad)
  · simp [defaultGuardVersion]

/-- Witness for claim C7 at stored version 2 against supported version 1. -/
theorem claim_C7_version_witness :
    Replay.decode BoolW ((Replay.encode BoolW exSmall).take 4
        ++ (beBytes 4 2 ++ (Replay.encode BoolW exSmall).drop 8))
      = .error (.Context "core version" (.UnsupportedCoreVersion 2))
    ∧ Replay.decode BoolW ((Replay.encode BoolW exSmall).take 12
        ++ (beBytes 4 2 ++ (Replay.encode BoolW exSmall).drop 16))
      = .error (.Context "game version" (.UnsupportedGameVersion 2))
    ∧ (defaultGuardVersion 1 2 = false ↔ 2 ≠ 1) :=
  ⟨(claim_C7_version BoolW exSmall 2 1 (by decide)).1 (by decide),
   (claim_C7_version BoolW exSmall 2 1 (by decide)).2.1 (by decide),
   (claim_C7_version BoolW exSmall 2 1 (by decide)).2.2⟩

/-- Claim C8: a container whose initial-state block declares length 0
decodes successfully with the world type's default value as initial state,
and a zero-length block never invokes the inner payload parser: for every
inner parser the zero-length block yields the absent marker. -/
theorem claim_C8_default {W I : Type} (C : WorldCodec W I) (rate : Nat)
    (log : List (Nat × List I)) (hI : GoodSer C.serI C.deSerI)
    (hguard : C.guardVersion C.currentVersion = true) (hcv : C.currentVersion < 2 ^ 32)
    (hrate : rate < 2 ^ 32) (hturns : ∀ p ∈ log, p.1 < 2 ^ 64 ∧ p.2.length < 2 ^ 64)
    (hlen : log.length < 2 ^ 64) :
    Replay.decode C (MAGIC_BYTES ++ (encode_be_u32 REPLAY_FORMAT_VERSION ++ (C.magicBytes
        ++ (encode_be_u32 C.currentVersion ++ (encode_be_u32 rate
        ++ (beBytes 8 0 ++ encode_vec log (turnEnc C)))))))
      = .ok { rate := rate, initial := C.defaultW, inputs := log }
    ∧ (∀ (f : Bytes → PResult W) (Y : Bytes),
        length_decoding f (beBytes 8 0 ++ Y) = .ok Y none) := by
  constructor
  · apply decode_of_ok
    rw [parseReplay_header C _ hguard hcv hrate,
      pcontext_ok _ (length_decoding_zero _ _)]
    simp only [PResult.bind]
    have hv : decode_vec (parse_turn C)
        (beBytes 8 log.length ++ ((log.map (turnEnc C)).flatten ++ [])) = .ok [] log :=
      decode_vec_append [] hlen
        (fun p hp rr => parse_turn_append hI p rr (hturns p hp).1 (hturns p hp).2)
    rw [List.append_nil] at hv
    rw [encode_vec, encode_be_u64, pcontext_ok _ hv]
    rfl
  · exact fun f Y => length_decoding_zero f Y

/-- Witness for claim C8 at a one-turn log. -/
theorem claim_C8_default_witness :
    Replay.decode BoolW (MAGIC_BYTES ++ (encode_be_u32 REPLAY_FORMAT_VERSION
        ++ (BoolW.magicBytes ++ (encode_be_u32 BoolW.currentVersion ++ (encode_be_u32 60
        ++ (beBytes 8 0 ++ encode_vec [(5, [true])] (turnEnc BoolW)))))))
      = .ok { rate := 60, initial := BoolW.defaultW, inputs := [(5, [true])] }
    ∧ length_decoding (ciborium_parse boolDeSer) (beBytes 8 0 ++ [7]) = .ok [7] none :=
  ⟨(claim_C8_default BoolW 60 [(5, [true])] goodSer_bool (by decide) (by decide)
      (by decide) (by decide) (by decide)).1,
   (claim_C8_default BoolW 60 [(5, [true])] goodSer_bool (by decide) (by decide)
      (by decide) (by decide) (by decide)).2 (ciborium_parse boolDeSer) [7]⟩

/-- Claim C9: a container whose turn log declares one input present but
whose input block has declared length 0 makes the parse fail fatally
(Err::Failure) with MissingTurnInput at the root of the context path, and
decode returns that error rather than any replay. -/
theorem claim_C9_missing {W I : Type} (C : WorldCodec W I) (rate t : Nat) (w : W) (X : Bytes)
    (hW : GoodSer C.serW C.deSerW) (hguard : C.guardVersion C.currentVersion = true)
    (hcv : C.currentVersion < 2 ^ 32) (hrate : rate < 2 ^ 32) (ht : t < 2 ^ 64) :
    Replay.decode C (MAGIC_BYTES ++ (encode_be_u32 REPLAY_FORMAT_VERSION ++ (C.magicBytes
        ++ (encode_be_u32 C.currentVersion ++ (encode_be_u32 rate
        ++ (length_encoded (C.serW w)
        ++ (beBytes 8 1 ++ (beBytes 8 t ++ (beBytes 8 1 ++ (beBytes 8 0 ++ X))))))))))
      = .error (.Context "inputs" (.Context "vector item" (.Context "turn inputs"
          (.Context "vector item" .MissingTurnInput))))
    ∧ rootCause (.Context "inputs" (.Context "vector item" (.Context "turn inputs"
        (.Context "vector item" .MissingTurnInput)))) = .MissingTurnInput := by
  constructor
  · apply decode_of_failure
    rw [length_encoded, encode_be_u64, List.append_assoc,
      parseReplay_header C _ hguard hcv hrate,
      pcontext_ok _ (length_decoding_ok _ (hW w).1 (hW w).2.1 (ciborium_parse_ser hW w))]
    simp only [PResult.bind]
    rw [pcontext_failure _ (decode_vec_turn_missing C _ ht)]
  · rfl

/-- Witness for claim C9 at the Bool codec, turn 5, one declared input with
a zero-length block. -/
theorem claim_C9_missing_witness :
    Replay.decode BoolW (MAGIC_BYTES ++ (encode_be_u32 REPLAY_FORMAT_VERSION
        ++ (BoolW.magicBytes ++ (encode_be_u32 BoolW.currentVersion ++ (encode_be_u32 60
        ++ (length_encoded (BoolW.serW true)
        ++ (beBytes 8 1 ++ (beBytes 8 5 ++ (beBytes 8 1 ++ (beBytes 8 0 ++ []))))))))))
      = .error (.Context "inputs" (.Context "vector item" (.Context "turn inputs"
          (.Context "vector item" .MissingTurnInput))))
    ∧ rootCause (.Context "inputs" (.Context "vector item" (.Context "turn inputs"
        (.Context "vector item" .MissingTurnInput)))) = .MissingTurnInput :=
  claim_C9_missing BoolW 60 5 true [] goodSer_bool (by decide) (by decide)
    (by decide) (by decide)

end Strategka
